import Mathlib

/-!
Verification of the jady_call HTTP request facade (jady-js implementation).

This file gives a shallow embedding, in Lean 4, of the pure core of the
jady-js source: the header normalizer (`processHeaders`), the query
serializer (`buildURL`), the config merger (`mergeConfig`), the retry-delay
computation (`getRetryDelay`), the response-body selection of the bundled
fetch adapter, and the retry/redirect loop of `dispatchRequest`
(src/unnamed/part_007).  Machine-level JavaScript values (null, undefined,
strings, numbers, arrays, plain objects) are modelled by explicit inductive
types; JavaScript object mutation in `mergeConfig` is modelled by an explicit
heap of objects with addresses; time (`Date.now()`) is an explicit clock that
advances by the durations reported by the transport adapter and by retry
sleeps; the `while (true)` dispatch loop is modelled with explicit fuel.
-/

/-! ## Generic association-list helpers

JavaScript objects are modelled as association lists `List (String × α)` in
insertion order.  `obj[k] = v` keeps the position of an existing key and
appends a new key at the end, which is what `setField` does.
-/

def setField {α : Type} : List (String × α) → String → α → List (String × α)
  | [], k, v => [(k, v)]
  | (k0, v0) :: rest, k, v =>
      if k0 = k then (k0, v) :: rest else (k0, v0) :: setField rest k v

def lookupField {α : Type} (l : List (String × α)) (k : String) : Option α :=
  (l.find? (fun p => p.1 == k)).map (·.2)

/-- ASCII lowercasing, as JavaScript `toLowerCase` behaves on the ASCII
header names and URL components handled here. -/
def lowerAscii (s : String) : String :=
  String.mk (s.toList.map Char.toLower)

/-! ## JavaScript `parseInt(s, 10)`

Used by `getRetryDelay` on the `retry-after` header: skip leading
whitespace, accept an optional sign, read a maximal run of decimal digits,
and give NaN (here: `none`) when no digit was read. -/

def digitsPrefixVal (cs : List Char) : Option Nat :=
  let ds := cs.takeWhile Char.isDigit
  if ds.isEmpty then none
  else some (ds.foldl (fun a c => a * 10 + (c.toNat - 48)) 0)

def parseIntJS (s : String) : Option Int :=
  let cs := s.toList.dropWhile (fun c => c = ' ' ∨ c = '\t' ∨ c = '\n' ∨ c = '\r')
  match cs with
  | '-' :: rest => (digitsPrefixVal rest).map (fun n => -(n : Int))
  | '+' :: rest => (digitsPrefixVal rest).map Int.ofNat
  | _ => (digitsPrefixVal cs).map Int.ofNat

/-! ## Header normalizer (`processHeaders`, src/unnamed/part_006 lines 406-435)

Header values in a `JadyConfig` are `string | string[] | number | boolean |
Date | null | undefined` (types.ts; `Date` appears in the test-suite and is
rendered with `toUTCString`, modelled here by carrying the rendered string).
-/

inductive HVal : Type where
  | hnull                       -- JavaScript null or undefined
  | hstr (s : String)
  | harr (l : List String)
  | hbool (b : Bool)
  | hnum (n : Int)
  | hdate (utc : String)        -- a Date, represented by its toUTCString form
deriving DecidableEq, Repr

/-- Membership test for the RFC 7230 header-token character class used by the
source regex `[^a-zA-Z0-9\-!#$%&'*+.^_|~]` (with backtick); the special
characters are given by code point to keep the source set exact. -/
def tokenChar (c : Char) : Bool :=
  c.isAlpha || c.isDigit ||
    [45, 33, 35, 36, 37, 38, 39, 42, 43, 46, 94, 95, 96, 124, 126].contains c.toNat

def headerNameOk (k : String) : Bool :=
  k.toList.all tokenChar

def hasCRLF (s : String) : Bool :=
  s.toList.any (fun c => c = '\r' ∨ c = '\n')

/-- Stringification of a header value: `null`/`undefined` give `none`
(the entry is omitted), arrays are joined with `value.join(',')`,
dates render as `toUTCString`, and everything else as `String(value)`. -/
def hvalToString : HVal → Option String
  | .hnull => none
  | .hstr s => some s
  | .harr l => some (String.intercalate "," l)
  | .hbool b => some (if b then "true" else "false")
  | .hnum n => some (toString n)
  | .hdate u => some u

def processHeadersGo : List (String × String) → List (String × HVal) →
    Except String (List (String × String))
  | acc, [] => .ok acc
  | acc, (k, v) :: rest =>
      if k = "" then processHeadersGo acc rest
      else if headerNameOk k then
        match hvalToString v with
        | none => processHeadersGo acc rest
        | some s =>
            if hasCRLF s then .error ("Invalid header value for " ++ k)
            else processHeadersGo (setField acc (lowerAscii k) s) rest
      else .error ("Invalid header name: " ++ k)

def processHeaders (hs : List (String × HVal)) : Except String (List (String × String)) :=
  processHeadersGo [] hs

/-! ## Query-string builder (`buildURL`, src/unnamed/part_006 lines 303-386)

Parameter values are `null`/`undefined`, strings, numbers, booleans, dates
(serialized by `toISOString`, carried here as the rendered string), arrays,
or nested objects (which the source rejects with an exception). -/

inductive PVal : Type where
  | pnull                       -- null or undefined
  | pstr (s : String)
  | pnum (n : Int)
  | pbool (b : Bool)
  | pdate (iso : String)        -- a Date, represented by its toISOString form
  | parr (l : List PVal)
  | pobj                        -- any other object (rejected inside params)

/-- Unreserved characters of JavaScript `encodeURIComponent`:
ASCII letters, digits, and `- _ . ! ~ * ( )` plus apostrophe
(special characters listed by code point). -/
def euriUnreserved (c : Char) : Bool :=
  c.isAlpha || c.isDigit || [45, 95, 46, 33, 126, 42, 39, 40, 41].contains c.toNat

def hexDigitUpper (n : Nat) : Char :=
  if n < 10 then Char.ofNat (48 + n) else Char.ofNat (55 + n)

def percentEncodeByte (b : Nat) : String :=
  String.mk ['%', hexDigitUpper (b / 16), hexDigitUpper (b % 16)]

/-- UTF-8 bytes of a character (as used by `encodeURIComponent`). -/
def utf8Bytes (c : Char) : List Nat :=
  let n := c.toNat
  if n < 0x80 then [n]
  else if n < 0x800 then [0xC0 + n / 0x40, 0x80 + n % 0x40]
  else if n < 0x10000 then
    [0xE0 + n / 0x1000, 0x80 + n / 0x40 % 0x40, 0x80 + n % 0x40]
  else
    [0xF0 + n / 0x40000, 0x80 + n / 0x1000 % 0x40, 0x80 + n / 0x40 % 0x40, 0x80 + n % 0x40]

/-- The source `encode` is `encodeURIComponent` followed by global replaces
that undo the escaping of `: $ , [ ]` and turn `%20` into `+`.  Since `%`
occurs in `encodeURIComponent` output only as the head of an escape triple,
and the triples `%3A %24 %2C %20 %5B %5D` each arise only as the escape of
the corresponding ASCII character (UTF-8 continuation and lead bytes are all
`≥ 0x80`), the composition is exactly this character-wise map. -/
def encodeChar (c : Char) : String :=
  if euriUnreserved c || [58, 36, 44, 91, 93].contains c.toNat then String.singleton c
  else if c = ' ' then "+"
  else (utf8Bytes c).foldl (fun a b => a ++ percentEncodeByte b) ""

def encode (s : String) : String :=
  s.toList.foldl (fun a c => a ++ encodeChar c) ""

/-- Stringification of one array entry or scalar in `buildURL`:
dates become ISO strings, nested objects and arrays raise
`Nested object in params is not supported`, others go through `String(v)`. -/
def pvalToString (key : String) : PVal → Except String String
  | .pnull => .error "unreachable: null entries are filtered before stringification"
  | .pstr s => .ok s
  | .pnum n => .ok (toString n)
  | .pbool b => .ok (if b then "true" else "false")
  | .pdate iso => .ok iso
  | .parr _ => .error ("Nested object in params is not supported: " ++ key)
  | .pobj => .error ("Nested object in params is not supported: " ++ key)

def isPNull : PVal → Bool
  | .pnull => true
  | _ => false

/-- Serialize the entries of one array-valued key, mirroring the
`repeat`/`brackets`/`index`/`comma` branches of the source. -/
def serializeArray (key : String) (l : List PVal) (format : String) :
    Except String (List String) :=
  let validValues := l.filter (fun v => !(isPNull v))
  if validValues.isEmpty then .ok []
  else if format = "comma" then
    match validValues.mapM (pvalToString key) with
    | .error e => .error e
    | .ok strs => .ok [encode key ++ "=" ++ encode (String.intercalate "," strs)]
  else
    let folded : Except String (Nat × List String) :=
      validValues.foldlM (fun (st : Nat × List String) v => do
        let (idxCounter, parts) := st
        let currentKey :=
          if format = "brackets" then key ++ "[]"
          else if format = "index" then key ++ "[" ++ toString idxCounter ++ "]"
          else key
        let s ← pvalToString key v
        pure (if format = "index" then idxCounter + 1 else idxCounter,
              parts ++ [encode currentKey ++ "=" ++ encode s])) (0, [])
    folded.map (fun st => st.2)

def serializeParams (params : List (String × PVal)) (format : String) :
    Except String (List String) :=
  params.foldlM (fun parts (kv : String × PVal) => do
      let (key, v) := kv
      match v with
      | .pnull => pure parts
      | .parr l => do
          let newParts ← serializeArray key l format
          pure (parts ++ newParts)
      | _ => do
          let s ← pvalToString key v
          pure (parts ++ [encode key ++ "=" ++ encode s])) []

/-- Splits a url at the first `#`, giving the part before and the fragment
including the `#` itself (the source keeps the fragment and re-appends it). -/
def splitHash (u : String) : String × String :=
  let cs := u.toList
  let before := cs.takeWhile (fun c => c ≠ '#')
  let hash := cs.dropWhile (fun c => c ≠ '#')
  (String.mk before, String.mk hash)

def hasQuestionMark (u : String) : Bool :=
  u.toList.any (fun c => c = '?')

/-- `buildURL(url, params, paramsSerializer, paramsArrayFormat)`.  `params`
is `none` when absent (falsy).  A caller-supplied serializer bypasses the
object serialization (its result loses a leading `?` if present).  The
platform `URLSearchParams` branch is not modelled (no claim touches it). -/
def buildURL (url : String) (params : Option (List (String × PVal)))
    (paramsSerializer : Option (List (String × PVal) → String))
    (paramsArrayFormat : Option String) : Except String String :=
  match params with
  | none => .ok url
  | some ps =>
      let serializedE : Except String String :=
        match paramsSerializer with
        | some f =>
            let s := f ps
            .ok (match s.toList with
                 | '?' :: rest => String.mk rest
                 | _ => s)
        | none =>
            -- `paramsArrayFormat || 'repeat'`: an absent or empty format means repeat
            let f0 := paramsArrayFormat.getD ""
            let format := if f0 = "" then "repeat" else f0
            (serializeParams ps format).map (String.intercalate "&")
      match serializedE with
      | .error e => .error e
      | .ok serialized =>
          if serialized = "" then .ok url
          else
            let (base, hash) := splitHash url
            .ok (base ++ (if hasQuestionMark base then "&" else "?") ++ serialized ++ hash)

/-! ## Config merger (`mergeConfig`, src/unnamed/part_006 lines 260-272)

`mergeConfig` copies `config1` shallowly and then walks `config2`'s keys,
deep-merging only values that are plain objects (`val.constructor ===
Object`) and replacing everything else (arrays, class instances,
primitives) wholesale.  To talk about mutation, plain objects are modelled
by addresses into an explicit heap (a list of field lists); every object
the function creates is appended to the heap, so "no caller object is
mutated" is the statement that the original heap is a prefix of the final
one.  Arrays and opaque class instances are only ever copied by reference
and never written through, so they are carried as immutable values. -/

inductive JVal : Type where
  | undefv
  | nullv
  | boolv (b : Bool)
  | numv (n : Int)
  | strv (s : String)
  | ref (a : Nat)               -- a plain object: address into the heap
  | arrv (elems : List JVal)    -- an array (never element-merged)
  | opaq (tag : Nat)            -- a class instance such as AbortSignal/FormData
deriving Repr

abbrev JObj := List (String × JVal)

abbrev Heap := List JObj

def nthObj : Heap → Nat → Option JObj
  | [], _ => none
  | o :: _, 0 => some o
  | _ :: rest, n + 1 => nthObj rest n

/-- JavaScript truthiness of a modelled value. -/
def jTruthy : JVal → Bool
  | .undefv => false
  | .nullv => false
  | .boolv b => b
  | .numv n => n != 0
  | .strv s => s != ""
  | _ => true

/-- The source guard `val && typeof val === 'object' && !Array.isArray(val)
&& val.constructor === Object`: true exactly for plain objects. -/
def isPlainObj : JVal → Bool
  | .ref _ => true
  | _ => false

/-- `{...v}`: the own fields of a plain object, and the empty field list for
primitives (configs are objects; string/array index spreading is not
modelled). -/
def spreadFields (h : Heap) : JVal → JObj
  | .ref a => (nthObj h a).getD []
  | _ => []

/-- `result[key] || {}`: the current result value when truthy, otherwise an
empty object (spreading an empty object and spreading `undefv` both give no
fields, so the fresh `{}` literal is elided). -/
def mergeBase (acc : JObj) (k : String) : JVal :=
  match lookupField acc k with
  | some b => if jTruthy b then b else .undefv
  | none => .undefv

/-- The `for (const key in config2)` loop of `mergeConfig`, acting on the
accumulated result fields; `mrg` is the recursive `mergeConfig` call (tied
in `mergeConfig` below). -/
def mergeFieldsWith (mrg : Heap → JVal → JVal → Option (Heap × JVal)) :
    Heap → JObj → JObj → Option (Heap × JObj)
  | h, acc, [] => some (h, acc)
  | h, acc, (k, val) :: rest =>
      if jTruthy val && isPlainObj val then
        match mrg h (mergeBase acc k) val with
        | none => none
        | some (h1, r) => mergeFieldsWith mrg h1 (setField acc k r) rest
      else mergeFieldsWith mrg h (setField acc k val) rest

/-- `mergeConfig(config1, config2)`.  The result object is allocated at the
end of the heap; `none` means the fuel ran out (the source diverges on
cyclic heaps the same way). -/
def mergeConfig : Nat → Heap → JVal → JVal → Option (Heap × JVal)
  | 0, _, _, _ => none
  | fuel + 1, h, v1, v2 =>
      match mergeFieldsWith (fun h b v => mergeConfig fuel h b v) h
          (spreadFields h v1) (spreadFields h v2) with
      | none => none
      | some (h1, flds) => some (h1 ++ [flds], .ref h1.length)

/-! ## URL helpers (src/unnamed/part_006) -/

def startsWithL : List Char → List Char → Bool
  | [], _ => true
  | _ :: _, [] => false
  | a :: as, b :: bs => a == b && startsWithL as bs

def isAsciiLetter (c : Char) : Bool :=
  c.isUpper || c.isLower

/-- `isAbsoluteURL`: matches `^([a-z][a-z\d+\-.]*:)?\/\/` case-insensitively. -/
def isAbsoluteURL (u : String) : Bool :=
  if startsWithL ['/', '/'] u.toList then true
  else
    let cs := u.toList
    match cs with
    | c :: rest =>
        if isAsciiLetter c then
          let schemeRest := rest.takeWhile (fun c =>
            isAsciiLetter c || c.isDigit || [43, 45, 46].contains c.toNat)
          let after := rest.drop schemeRest.length
          match after with
          | ':' :: '/' :: '/' :: _ => true
          | _ => false
        else false
    | [] => false

def dropTrailingSlashes (s : String) : String :=
  String.mk (s.toList.reverse.dropWhile (fun c => c = '/')).reverse

def dropLeadingSlashes (s : String) : String :=
  String.mk (s.toList.dropWhile (fun c => c = '/'))

/-- `combineURLs`: join with exactly one slash when the relative part is
non-empty. -/
def combineURLs (baseURL relativeURL : String) : String :=
  if relativeURL = "" then baseURL
  else dropTrailingSlashes baseURL ++ "/" ++ dropLeadingSlashes relativeURL

/-- `config.url.replace(/\/[^\/]*$/, '')`: drop the last path segment
including its slash; a string without `/` is unchanged. -/
def dropLastSegment (u : String) : String :=
  let cs := u.toList
  if cs.any (fun c => c = '/') then
    String.mk (cs.reverse.dropWhile (fun c => c ≠ '/')).reverse.dropLast
  else u

/-! ## `new URL(u).origin` (platform collaborator)

Modelled for absolute URLs of the shape `scheme://[userinfo@]host[:port]...`.
Special schemes get a `scheme://host[:port]` tuple origin with default ports
elided; other parseable schemes get the opaque origin `"null"` (as WHATWG URL
does); anything else fails to parse (`none`), which the dispatch engine
swallows (no header stripping). -/

def schemeDefaultPort : String → Option String
  | "http" => some "80"
  | "https" => some "443"
  | "ws" => some "80"
  | "wss" => some "443"
  | "ftp" => some "21"
  | _ => none

def isSpecialScheme (s : String) : Bool :=
  (schemeDefaultPort s).isSome

def originOf (u : String) : Option String :=
  let cs := u.toList
  match cs with
  | c :: rest =>
      if isAsciiLetter c then
        let schemeRest := rest.takeWhile (fun c =>
          isAsciiLetter c || c.isDigit || [43, 45, 46].contains c.toNat)
        let after := rest.drop schemeRest.length
        match after with
        | ':' :: '/' :: '/' :: tail =>
            let scheme := lowerAscii (String.mk (c :: schemeRest))
            let authority := tail.takeWhile (fun c => c ≠ '/' && c ≠ '?' && c ≠ '#')
            let hostPort :=
              if authority.any (fun c => c = '@') then
                ((authority.reverse.takeWhile (fun c => c ≠ '@')).reverse)
              else authority
            let host := lowerAscii (String.mk (hostPort.takeWhile (fun c => c ≠ ':')))
            let portCs := (hostPort.dropWhile (fun c => c ≠ ':')).drop 1
            if host = "" then none
            else if ¬ (portCs.all Char.isDigit) then none
            else if isSpecialScheme scheme then
              let port := String.mk portCs
              let portPart :=
                if port = "" || some port = schemeDefaultPort scheme then ""
                else ":" ++ port
              some (scheme ++ "://" ++ host ++ portPart)
            else some "null"
        | _ => none
      else none
  | [] => none

/-- Header stripping on redirect (src/unnamed/part_007 lines 176-183): when
both the current and the next URL parse and their origins differ, delete the
`authorization` and `cookie` entries; a URL parse error is swallowed and
nothing is stripped. -/
def redirectHeaders (curUrl nextUrl : String) (hs : List (String × String)) :
    List (String × String) :=
  match originOf curUrl, originOf nextUrl with
  | some o1, some o2 =>
      if o1 ≠ o2 then
        hs.filter (fun p => !(p.1 == "authorization" || p.1 == "cookie"))
      else hs
  | _, _ => hs

/-! ## Error model and retry-delay computation (src/unnamed/part_007)

`MResp`/`MErr` model the `JadyResponse`/`JadyError` fields the dispatch loop
reads.  Response headers reach the engine with lowercase keys (the fetch
adapter builds them from the platform `Headers` iterator). -/

inductive ErrCode : Type where
  | ETIMEDOUT | ECANCELED | ENETWORK | EPARSE | EMAXREDIRECTS | EUNKNOWN
deriving DecidableEq, Repr

structure MResp : Type where
  status : Nat
  headers : List (String × String)
  url : String
  duration : Nat
  ok : Bool
deriving DecidableEq, Repr

structure MErr : Type where
  code : ErrCode
  message : String
  response : Option MResp
deriving DecidableEq, Repr

def mkErr (code : ErrCode) (message : String) (response : Option MResp) : MErr :=
  ⟨code, message, response⟩

/-- `config.retryDelay`: a number or a function of (retryCount, error). -/
inductive RetryDelayV : Type where
  | num (n : Int)
  | fnDelay (f : Nat → Option MErr → Int)

/-- The static part of a merged `JadyConfig` read by the dispatch loop.
Hooks are not configured (all claims about the loop assume no hooks). -/
structure Cfg : Type where
  totalTimeout : Nat := 0
  retry : Nat := 0
  retryDelay : RetryDelayV := .num 0
  retryCondition : Option (MErr → Nat → Bool) := none
  validateStatus : Option (Nat → Bool) := none
  redirect : String := "follow"
  maxRedirects : Nat := 10

/-- `getRetryDelay` (src/unnamed/part_007 lines 55-62): the `retry-after`
response header is consulted first (a present, non-empty value whose
`parseInt` is not NaN wins and is converted from seconds to milliseconds);
only then a `retryDelay` function is applied or the numeric `retryDelay`
used (`|| 0` maps an unset/zero delay to 0). -/
def fallbackDelay (cfg : Cfg) (retryCount : Nat) (err : Option MErr) : Int :=
  match cfg.retryDelay with
  | .num n => n
  | .fnDelay f => f retryCount err

def getRetryDelay (cfg : Cfg) (retryCount : Nat) (err : Option MErr)
    (resp : Option MResp) : Int :=
  match resp with
  | some r =>
      match lookupField r.headers "retry-after" with
      | some s =>
          if s = "" then fallbackDelay cfg retryCount err  -- empty value is falsy
          else
            match parseIntJS s with
            | some n => n * 1000
            | none => fallbackDelay cfg retryCount err     -- parseInt gave NaN
      | none => fallbackDelay cfg retryCount err
  | none => fallbackDelay cfg retryCount err

/-- `isRetryableError` (lines 49-53). -/
def isRetryableError (e : MErr) : Bool :=
  e.code != .ECANCELED && e.code != .EMAXREDIRECTS && e.code != .EPARSE

/-- `config.validateStatus || ((status) => status >= 200 && status < 300)`. -/
def effValidate (cfg : Cfg) (status : Nat) : Bool :=
  match cfg.validateStatus with
  | some f => f status
  | none => decide (200 ≤ status) && decide (status < 300)

/-- `config.maxRedirects || 10`: an explicit 0 counts as unset. -/
def effMaxRedirects (cfg : Cfg) : Nat :=
  if cfg.maxRedirects = 0 then 10 else cfg.maxRedirects

/-! ## Dispatch loop (src/unnamed/part_007 lines 119-289)

The loop state carries the mutable parts of the config (`url`, `method`,
the presence of `data`, `headers`) together with the clock (`Date.now() -
startTime`), the retry and redirect counters, and the number of transport
invocations so far.  The transport adapter is an oracle giving, for each
invocation index, either a response or a thrown error, plus the wall-clock
milliseconds the attempt consumed.  Each iteration reports its observable
events: `att i` for the i-th transport invocation and `slp ms` for an
inter-retry sleep.  (The engine's internal `attempts` array also records a
final error entry in the catch block, but it is attached only to successful
responses, so it is not part of this model.) -/

inductive Outcome : Type where
  | resp (r : MResp) (elapsed : Nat)
  | thrown (e : MErr) (elapsed : Nat)

structure LState : Type where
  url : String
  method : String := "GET"
  hasData : Bool := false
  headers : List (String × String) := []
  clock : Nat := 0
  retryCount : Nat := 0
  redirectCount : Nat := 0
  attemptIdx : Nat := 0
deriving Repr

inductive Event : Type where
  | att (i : Nat)
  | slp (ms : Nat)
deriving DecidableEq, Repr

inductive DResult : Type where
  | success (r : MResp)
  | failure (e : MErr)
deriving DecidableEq, Repr

inductive IterOut : Type where
  | done (r : DResult)
  | next (st : LState)

/-- The `retryCondition` check: absent means retry. -/
def retryAllowed (cfg : Cfg) (e : MErr) (retryCount : Nat) : Bool :=
  match cfg.retryCondition with
  | some f => f e (retryCount + 1)
  | none => true

/-- The `catch (e)` block (lines 227-267): non-retryable errors (and
exhausted retry budget, and a vetoing `retryCondition`) end the loop with
the error; otherwise the projected total-timeout check runs (its `throw`
propagates out of the loop) and then the engine sleeps and retries. -/
def catchPath (cfg : Cfg) (st : LState) (e : MErr) (evs : List Event) :
    List Event × IterOut :=
  if isRetryableError e = true ∧ st.retryCount < cfg.retry then
    if retryAllowed cfg e st.retryCount = true then
      let delay := getRetryDelay cfg (st.retryCount + 1) (some e) none
      if 0 < cfg.totalTimeout ∧ (cfg.totalTimeout : Int) < (st.clock : Int) + delay then
        (evs, .done (.failure (mkErr .ETIMEDOUT "Total timeout exceeded during retry delay" none)))
      else
        (evs ++ [.slp delay.toNat],
         .next { st with clock := st.clock + delay.toNat, retryCount := st.retryCount + 1 })
    else (evs, .done (.failure e))
  else (evs, .done (.failure e))

/-- Lines 194-225: a response that failed `validateStatus` and is not a
followable redirect.  On a retryable status (429/5xx) with remaining budget
the delay is computed (now consulting the response's `retry-after`); the
projected total-timeout check `throw`s -- but that throw happens inside the
`try`, so it lands in the catch block (`catchPath`).  Otherwise the status
error itself is thrown into the catch block. -/
def statusFailPath (cfg : Cfg) (st : LState) (r : MResp) (evs : List Event) :
    List Event × IterOut :=
  let statusError := mkErr .ENETWORK ("Request failed with status code " ++ toString r.status) (some r)
  if (r.status = 429 ∨ 500 ≤ r.status) ∧ st.retryCount < cfg.retry then
    let delay := getRetryDelay cfg (st.retryCount + 1) (some statusError) (some r)
    if 0 < cfg.totalTimeout ∧ (cfg.totalTimeout : Int) < (st.clock : Int) + delay then
      catchPath cfg st (mkErr .ETIMEDOUT "Total timeout exceeded during retry delay" (some r)) evs
    else
      (evs ++ [.slp delay.toNat],
       .next { st with clock := st.clock + delay.toNat, retryCount := st.retryCount + 1 })
  else
    catchPath cfg st statusError evs

/-- `response.headers['location']` with the truthiness check of line 155
(an empty string is falsy). -/
def locationOf (r : MResp) : Option String :=
  match lookupField r.headers "location" with
  | some l => if l = "" then none else some l
  | none => none

/-- The follow-up state of a followed redirect (lines 160-191): resolve the
location, force GET and drop the body on 301/302/303, strip credentials on
a cross-origin hop, bump the redirect counter. -/
def redirectNext (st1 : LState) (r : MResp) (loc : String) : LState :=
  let nextUrl :=
    if isAbsoluteURL loc then loc
    else combineURLs (dropLastSegment st1.url) loc
  let isGetify := r.status == 301 || r.status == 302 || r.status == 303
  { st1 with
      url := nextUrl,
      method := if isGetify then "GET" else st1.method,
      hasData := if isGetify then false else st1.hasData,
      headers := redirectHeaders st1.url nextUrl st1.headers,
      redirectCount := st1.redirectCount + 1 }

/-- Lines 147-225: what happens to a response the adapter returned --
status validation, redirect handling, then the status-retry path. -/
def respPath (cfg : Cfg) (st1 : LState) (r : MResp) (evs : List Event) :
    List Event × IterOut :=
  if effValidate cfg r.status = true then (evs, .done (.success r))
  else
    match locationOf r with
    | some loc =>
        if cfg.redirect = "follow" ∧ 300 ≤ r.status ∧ r.status < 400 then
          if effMaxRedirects cfg ≤ st1.redirectCount then
            catchPath cfg st1 (mkErr .EMAXREDIRECTS "Max redirects exceeded" (some r)) evs
          else (evs, .next (redirectNext st1 r loc))
        else statusFailPath cfg st1 r evs
    | none => statusFailPath cfg st1 r evs

/-- One iteration of `while (true)` (lines 119-268). -/
def loopIter (cfg : Cfg) (st : LState) (out : Outcome) : List Event × IterOut :=
  if 0 < cfg.totalTimeout ∧ cfg.totalTimeout < st.clock then
    ([], .done (.failure (mkErr .ETIMEDOUT "Total timeout exceeded" none)))
  else
    match out with
    | .thrown e elapsed =>
        catchPath cfg { st with clock := st.clock + elapsed, attemptIdx := st.attemptIdx + 1 }
          e [.att st.attemptIdx]
    | .resp r elapsed =>
        respPath cfg { st with clock := st.clock + elapsed, attemptIdx := st.attemptIdx + 1 }
          r [.att st.attemptIdx]

/-- The fueled dispatch loop: `none` when the fuel runs out before the loop
ends.  The adapter oracle maps the invocation index to its outcome. -/
def dispatchFrom : Nat → Cfg → LState → (Nat → Outcome) → Option (DResult × List Event)
  | 0, _, _, _ => none
  | fuel + 1, cfg, st, adapter =>
      match loopIter cfg st (adapter st.attemptIdx) with
      | (evs, .done r) => some (r, evs)
      | (evs, .next st') =>
          (dispatchFrom fuel cfg st' adapter).map (fun p => (p.1, evs ++ p.2))

def initState (url : String) (method : String) (headers : List (String × String)) : LState :=
  { url := url, method := method, headers := headers }

def countAtt (tr : List Event) : Nat :=
  (tr.filter (fun e => match e with | .att _ => true | _ => false)).length

/-! ## Response-body selection of the bundled fetch adapter
(src/packages/jady-js/src/adapters/fetch.ts lines 139-256)

The decision tree that picks the returned `body`.  The request method is a
parameter but -- exactly as in the source, which never reads
`config.method` during response processing -- it is not inspected.
`jsonOk` is an oracle for `JSON.parse` succeeding on a given text; a parsed
JSON document is represented by the text it was parsed from. -/

inductive RBody : Type where
  | nullB
  | textB (s : String)
  | jsonB (s : String)
  | bufB (s : String)
  | blobB (s : String)
  | streamB
deriving DecidableEq, Repr

def containsSubL (needle : List Char) : List Char → Bool
  | [] => startsWithL needle []
  | c :: rest => startsWithL needle (c :: rest) || containsSubL needle rest

def containsSub (hay needle : String) : Bool :=
  containsSubL needle.toList hay.toList

def isJsSpace (c : Char) : Bool :=
  [9, 10, 11, 12, 13, 32, 160, 65279].contains c.toNat

/-- `text.replace(/^﻿/, '').trim()`. -/
def cleanJsonText (t : String) : String :=
  let cs := t.toList
  let cs := match cs with
    | c :: rest => if c.toNat = 65279 then rest else cs
    | [] => cs
  String.mk (((cs.dropWhile isJsSpace).reverse.dropWhile isJsSpace).reverse)

/-- The adapter's `parseJSON` helper: BOM removal and trim, `null` for an
empty body, a parse condition (`EPARSE`) when `JSON.parse` fails. -/
def parseJSONModel (jsonOk : String → Bool) (t : String) : Except ErrCode RBody :=
  let clean := cleanJsonText t
  if clean = "" then .ok .nullB
  else if jsonOk clean then .ok (.jsonB clean) else .error .EPARSE

def fetchResponseBody (_method : String) (status : Nat) (responseType : String)
    (contentType : Option String) (text : String)
    (saveRawBody jsonReviver : Bool) (responseEncoding : Option String)
    (jsonOk : String → Bool) : Except ErrCode RBody :=
  if status == 204 then .ok .nullB
  else
    let useRespEnc :=
      match responseEncoding with
      | some enc => enc != "" && lowerAscii enc != "utf-8"
      | none => false
    let ctIsJson :=
      match contentType with
      | some ct => containsSub ct "application/json" || containsSub ct "+json"
      | none => false
    if (saveRawBody || jsonReviver || useRespEnc) &&
        !(responseType == "stream") && !(responseType == "blob") &&
        !(responseType == "arraybuffer") && !(responseType == "bytes") then
      if responseType == "json" then parseJSONModel jsonOk text
      else if responseType == "text" then .ok (.textB text)
      else if ctIsJson then parseJSONModel jsonOk text
      else .ok (.textB text)
    else
      if responseType == "stream" then .ok .streamB
      else if responseType == "json" then parseJSONModel jsonOk text
      else if responseType == "text" then .ok (.textB text)
      else if responseType == "blob" then .ok (.blobB text)
      else if responseType == "arraybuffer" || responseType == "bytes" then .ok (.bufB text)
      else if ctIsJson then parseJSONModel jsonOk text
      else
        let ctTexty :=
          match contentType with
          | some ct => containsSub ct "text/" || containsSub ct "xml"
          | none => false
        if ctTexty then .ok (.textB text) else .ok (.bufB text)

/-- `ok: config.validateStatus ? config.validateStatus(response.status) :
response.ok` (fetch.ts line 283). -/
def fetchOk (validateStatus : Option (Nat → Bool)) (status : Nat) (nativeOk : Bool) : Bool :=
  match validateStatus with
  | some f => f status
  | none => nativeOk


/-! ## C1: retry-delay priority -/

/-- C1 (amended): `getRetryDelay` consults the response's `retry-after`
header first -- a present, non-empty value whose `parseInt` succeeds wins
and is converted to milliseconds; only otherwise is a caller-supplied
`retryDelay` function applied to (attemptNumber, error), or the numeric
`retryDelay` used (`fallbackDelay`). -/
theorem C1_getRetryDelay_priority (cfg : Cfg) (rc : Nat) (err : Option MErr) :
    (∀ r s n, lookupField r.headers "retry-after" = some s → s ≠ "" →
        parseIntJS s = some n → getRetryDelay cfg rc err (some r) = n * 1000)
  ∧ (∀ r, (∀ s, lookupField r.headers "retry-after" = some s → s = "" ∨ parseIntJS s = none) →
        getRetryDelay cfg rc err (some r) = fallbackDelay cfg rc err)
  ∧ (getRetryDelay cfg rc err none = fallbackDelay cfg rc err) := by
  refine ⟨?_, ?_, rfl⟩
  · intro r s n hs hne hp
    simp only [getRetryDelay, hs, if_neg hne, hp]
  · intro r hall
    cases hl : lookupField r.headers "retry-after" with
    | none => simp only [getRetryDelay, hl]
    | some s =>
        simp only [getRetryDelay, hl]
        rcases hall s hl with he | hp
        · rw [if_pos he]
        · by_cases he : s = ""
          · rw [if_pos he]
          · rw [if_neg he, hp]

/-- C1 counterexample: with a numeric `retryDelay` of 5 ms and a response
carrying `retry-after: 2`, `getRetryDelay` returns 2000 ms (the header is
consulted first), not the 5 ms the claimed priority order requires. -/
theorem C1_cx :
    getRetryDelay { retryDelay := .num 5 } 1 none
      (some { status := 503, headers := [("retry-after", "2")], url := "u",
              duration := 0, ok := false })
      = 2000 ∧ (2000 : Int) ≠ 5 :=
  ⟨rfl, by decide⟩

/-- Witness for C1: the amended theorem applied at a concrete response. -/
theorem C1_witness :
    getRetryDelay { retryDelay := .num 5 } 1 none
      (some { status := 503, headers := [("retry-after", "2")], url := "u",
              duration := 0, ok := false })
      = 2 * 1000 :=
  (C1_getRetryDelay_priority { retryDelay := .num 5 } 1 none).1
    { status := 503, headers := [("retry-after", "2")], url := "u",
      duration := 0, ok := false }
    "2" 2 rfl (by decide) rfl

/-! ## C2: header normalization -/

theorem mem_setField {α : Type} (l : List (String × α)) (k : String) (v : α)
    (p : String × α) (hp : p ∈ setField l k v) : p ∈ l ∨ p = (k, v) := by
  induction l with
  | nil =>
      simp only [setField, List.mem_singleton] at hp
      exact Or.inr hp
  | cons q rest ih =>
      obtain ⟨k0, v0⟩ := q
      simp only [setField] at hp
      by_cases hk : k0 = k
      · rw [if_pos hk] at hp
        rcases List.mem_cons.mp hp with h | h
        · exact Or.inr (by rw [h, hk])
        · exact Or.inl (List.mem_cons_of_mem _ h)
      · rw [if_neg hk] at hp
        rcases List.mem_cons.mp hp with h | h
        · exact Or.inl (by rw [h]; exact List.mem_cons_self _ _)
        · rcases ih h with h1 | h1
          · exact Or.inl (List.mem_cons_of_mem _ h1)
          · exact Or.inr h1

theorem processHeadersGo_ok_mem (hs : List (String × HVal)) :
    ∀ acc m, processHeadersGo acc hs = .ok m →
      ∀ p ∈ m, p ∈ acc ∨ ∃ q ∈ hs, p.1 = lowerAscii q.1 ∧ hvalToString q.2 = some p.2 := by
  induction hs with
  | nil =>
      intro acc m hok p hp
      simp only [processHeadersGo, Except.ok.injEq] at hok
      subst hok
      exact Or.inl hp
  | cons q0 rest ih =>
      intro acc m hok p hp
      obtain ⟨k, v⟩ := q0
      simp only [processHeadersGo] at hok
      by_cases hk : k = ""
      · rw [if_pos hk] at hok
        rcases ih acc m hok p hp with h | ⟨q, hq, h1, h2⟩
        · exact Or.inl h
        · exact Or.inr ⟨q, List.mem_cons_of_mem _ hq, h1, h2⟩
      · rw [if_neg hk] at hok
        by_cases hn : headerNameOk k
        · rw [if_pos hn] at hok
          cases hv : hvalToString v with
          | none =>
              rw [hv] at hok
              rcases ih acc m hok p hp with h | ⟨q, hq, h1, h2⟩
              · exact Or.inl h
              · exact Or.inr ⟨q, List.mem_cons_of_mem _ hq, h1, h2⟩
          | some s =>
              rw [hv] at hok
              simp only at hok
              by_cases hc : hasCRLF s
              · rw [if_pos hc] at hok
                exact absurd hok (by simp)
              · rw [if_neg hc] at hok
                rcases ih _ m hok p hp with h | ⟨q, hq, h1, h2⟩
                · rcases mem_setField _ _ _ _ h with h0 | h0
                  · exact Or.inl h0
                  · refine Or.inr ⟨(k, v), List.mem_cons_self _ _, ?_, ?_⟩
                    · rw [h0]
                    · rw [hv, h0]
                · exact Or.inr ⟨q, List.mem_cons_of_mem _ hq, h1, h2⟩
        · rw [if_neg hn] at hok
          exact absurd hok (by simp)

theorem processHeadersGo_name_error (hs : List (String × HVal)) :
    ∀ acc, (∃ q ∈ hs, q.1 ≠ "" ∧ headerNameOk q.1 = false) →
      ∃ msg, processHeadersGo acc hs = .error msg := by
  induction hs with
  | nil => intro acc h; simp at h
  | cons q0 rest ih =>
      intro acc h
      obtain ⟨k, v⟩ := q0
      simp only [processHeadersGo]
      rcases h with ⟨q, hq, hne, hbad⟩
      rcases List.mem_cons.mp hq with hq0 | hqr
      · subst hq0
        rw [if_neg hne]
        rw [if_neg (by simp [hbad])]
        exact ⟨_, rfl⟩
      · by_cases hk : k = ""
        · rw [if_pos hk]; exact ih acc ⟨q, hqr, hne, hbad⟩
        · rw [if_neg hk]
          by_cases hn : headerNameOk k
          · rw [if_pos hn]
            cases hv : hvalToString v with
            | none => exact ih acc ⟨q, hqr, hne, hbad⟩
            | some s =>
                simp only
                by_cases hc : hasCRLF s
                · rw [if_pos hc]; exact ⟨_, rfl⟩
                · rw [if_neg hc]; exact ih _ ⟨q, hqr, hne, hbad⟩
          · rw [if_neg hn]; exact ⟨_, rfl⟩

theorem processHeadersGo_value_error (hs : List (String × HVal)) :
    ∀ acc, (∃ q ∈ hs, ∃ s, q.1 ≠ "" ∧ headerNameOk q.1 = true ∧
        hvalToString q.2 = some s ∧ hasCRLF s = true) →
      ∃ msg, processHeadersGo acc hs = .error msg := by
  induction hs with
  | nil => intro acc h; simp at h
  | cons q0 rest ih =>
      intro acc h
      obtain ⟨k, v⟩ := q0
      simp only [processHeadersGo]
      rcases h with ⟨q, hq, s, hne, hok, hstr, hcrlf⟩
      rcases List.mem_cons.mp hq with hq0 | hqr
      · subst hq0
        rw [if_neg hne, if_pos hok, hstr]
        simp only
        rw [if_pos hcrlf]
        exact ⟨_, rfl⟩
      · by_cases hk : k = ""
        · rw [if_pos hk]; exact ih acc ⟨q, hqr, s, hne, hok, hstr, hcrlf⟩
        · rw [if_neg hk]
          by_cases hn : headerNameOk k
          · rw [if_pos hn]
            cases hv : hvalToString v with
            | none => exact ih acc ⟨q, hqr, s, hne, hok, hstr, hcrlf⟩
            | some s0 =>
                simp only
                by_cases hc : hasCRLF s0
                · rw [if_pos hc]; exact ⟨_, rfl⟩
                · rw [if_neg hc]; exact ih _ ⟨q, hqr, s, hne, hok, hstr, hcrlf⟩
          · rw [if_neg hn]; exact ⟨_, rfl⟩

/-- C2 (amended): every entry of a successful normalization comes from some
input entry with its key ASCII-lowercased and its value stringified (hence
`null`/`undefined`-valued entries are omitted); a non-empty key outside the
RFC token set fails; a CR or LF in the stringified value of an entry with a
non-empty valid key fails; an array value joins with the one-character
separator `","` (not `", "`); entries with an empty-string key are skipped
entirely. -/
theorem C2_processHeaders (hs : List (String × HVal)) :
    (∀ m, processHeaders hs = .ok m →
        ∀ p ∈ m, ∃ q ∈ hs, p.1 = lowerAscii q.1 ∧ hvalToString q.2 = some p.2)
  ∧ ((∃ q ∈ hs, q.1 ≠ "" ∧ headerNameOk q.1 = false) →
        ∃ msg, processHeaders hs = .error msg)
  ∧ ((∃ q ∈ hs, ∃ s, q.1 ≠ "" ∧ headerNameOk q.1 = true ∧
        hvalToString q.2 = some s ∧ hasCRLF s = true) →
        ∃ msg, processHeaders hs = .error msg)
  ∧ (∀ l, hvalToString (.harr l) = some (String.intercalate "," l)) := by
  refine ⟨?_, ?_, ?_, fun l => rfl⟩
  · intro m hok p hp
    rcases processHeadersGo_ok_mem hs [] m hok p hp with h | h
    · simp at h
    · exact h
  · intro h; exact processHeadersGo_name_error hs [] h
  · intro h; exact processHeadersGo_value_error hs [] h

/-- C2 counterexample: an array header value is joined with a bare comma;
the output for `["a","b"]` is `"a,b"`, not the `"a, b"` that joining with
`", "` would give. -/
theorem C2_cx :
    processHeaders [("X-A", .harr ["a", "b"])] = .ok [("x-a", "a,b")]
    ∧ ("a,b" : String) ≠ String.intercalate ", " ["a", "b"] :=
  ⟨rfl, by decide⟩

/-- Witness for C2: the amended theorem applied to a concrete header map
with an invalid name. -/
theorem C2_witness :
    ∃ msg, processHeaders [("Bad Name", .hstr "v")] = .error msg :=
  (C2_processHeaders [("Bad Name", .hstr "v")]).2.1
    ⟨("Bad Name", .hstr "v"), List.mem_singleton.mpr rfl, by decide, by decide⟩

/-! ## C4: query array formats -/

theorem filter_self_idem {α : Type} (p : α → Bool) (l : List α) :
    (l.filter p).filter p = l.filter p := by
  induction l with
  | nil => rfl
  | cons a rest ih =>
      by_cases h : p a
      · simp [List.filter_cons, h, ih]
      · simp [List.filter_cons, h, ih]

theorem serializeArray_filter (key : String) (l : List PVal) (fmt : String) :
    serializeArray key (l.filter (fun v => !(isPNull v))) fmt = serializeArray key l fmt := by
  simp only [serializeArray, filter_self_idem]

/-- C4: for the params entry `k = [1, null, 2]` the four
`paramsArrayFormat` values produce exactly the claimed query strings, and
null/undefined array entries are dropped before formatting (serializing the
pre-filtered array gives the same result for any key, entry list and
format, so index numbering and comma joining only ever see the surviving
values). -/
theorem C4_buildURL_arrayFormats :
    (buildURL "https://e.com/s" (some [("k", .parr [.pnum 1, .pnull, .pnum 2])]) none (some "repeat")
        = .ok "https://e.com/s?k=1&k=2")
  ∧ (buildURL "https://e.com/s" (some [("k", .parr [.pnum 1, .pnull, .pnum 2])]) none (some "brackets")
        = .ok "https://e.com/s?k[]=1&k[]=2")
  ∧ (buildURL "https://e.com/s" (some [("k", .parr [.pnum 1, .pnull, .pnum 2])]) none (some "index")
        = .ok "https://e.com/s?k[0]=1&k[1]=2")
  ∧ (buildURL "https://e.com/s" (some [("k", .parr [.pnum 1, .pnull, .pnum 2])]) none (some "comma")
        = .ok "https://e.com/s?k=1,2")
  ∧ (∀ key l fmt, serializeArray key (l.filter (fun v => !(isPNull v))) fmt
        = serializeArray key l fmt) :=
  ⟨rfl, rfl, rfl, rfl, serializeArray_filter⟩

/-! ## C5: mergeConfig is idempotent under an empty overlay and mutates no caller object -/

theorem nthObj_append_left (h t : Heap) :
    ∀ n, n < h.length → nthObj (h ++ t) n = nthObj h n := by
  induction h with
  | nil => intro n hn; exact absurd hn (by simp)
  | cons o rest ih =>
      intro n hn
      cases n with
      | zero => rfl
      | succ m => exact ih m (by simpa using hn)

theorem nthObj_append_self (h : Heap) (x : JObj) :
    nthObj (h ++ [x]) h.length = some x := by
  induction h with
  | nil => rfl
  | cons o rest ih => simpa using ih

theorem nthObj_some_lt (h : Heap) :
    ∀ a x, nthObj h a = some x → a < h.length := by
  induction h with
  | nil => intro a x hx; simp [nthObj] at hx
  | cons o rest ih =>
      intro a x hx
      cases a with
      | zero => simp
      | succ m =>
          have := ih m x hx
          simpa using Nat.succ_lt_succ this

theorem mergeFieldsWith_extends
    (mrg : Heap → JVal → JVal → Option (Heap × JVal))
    (hmrg : ∀ h v1 v2 out, mrg h v1 v2 = some out → ∃ t, out.1 = h ++ t) :
    ∀ (l : JObj) (h : Heap) (acc : JObj) out,
      mergeFieldsWith mrg h acc l = some out → ∃ t, out.1 = h ++ t := by
  intro l
  induction l with
  | nil =>
      intro h acc out hm
      simp only [mergeFieldsWith, Option.some.injEq] at hm
      exact ⟨[], by rw [← hm]; simp⟩
  | cons kv rest ih =>
      intro h acc out hm
      obtain ⟨k, val⟩ := kv
      simp only [mergeFieldsWith] at hm
      by_cases hc : (jTruthy val && isPlainObj val) = true
      · rw [if_pos hc] at hm
        cases hmc : mrg h (mergeBase acc k) val with
        | none => rw [hmc] at hm; simp at hm
        | some p =>
            obtain ⟨h1, r⟩ := p
            rw [hmc] at hm
            obtain ⟨t1, ht1⟩ := hmrg h (mergeBase acc k) val (h1, r) hmc
            obtain ⟨t2, ht2⟩ := ih h1 (setField acc k r) out hm
            refine ⟨t1 ++ t2, ?_⟩
            rw [ht2]
            simp only at ht1
            rw [ht1, List.append_assoc]
      · rw [if_neg hc] at hm
        exact ih h (setField acc k val) out hm

theorem mergeConfig_extends :
    ∀ (fuel : Nat) (h : Heap) (v1 v2 : JVal) out,
      mergeConfig fuel h v1 v2 = some out → ∃ t, out.1 = h ++ t := by
  intro fuel
  induction fuel with
  | zero => intro h v1 v2 out hm; simp [mergeConfig] at hm
  | succ f ih =>
      intro h v1 v2 out hm
      simp only [mergeConfig] at hm
      cases hmf : mergeFieldsWith (fun h b v => mergeConfig f h b v) h
          (spreadFields h v1) (spreadFields h v2) with
      | none => rw [hmf] at hm; simp at hm
      | some p =>
          obtain ⟨h1, flds⟩ := p
          rw [hmf] at hm
          obtain ⟨t1, ht1⟩ :=
            mergeFieldsWith_extends (fun h b v => mergeConfig f h b v)
              (fun h v1 v2 out hm0 => ih h v1 v2 out hm0)
              (spreadFields h v2) h (spreadFields h v1) (h1, flds) hmf
          simp only [Option.some.injEq] at hm
          simp only at ht1
          refine ⟨t1 ++ [flds], ?_⟩
          rw [← hm]
          simp only
          rw [ht1, List.append_assoc]

theorem mergeConfig_shape (fuel : Nat) (h : Heap) (v1 v2 : JVal) (h1 : Heap) (r1 : JVal)
    (hm : mergeConfig fuel h v1 v2 = some (h1, r1)) :
    ∃ a flds, r1 = .ref a ∧ nthObj h1 a = some flds := by
  cases fuel with
  | zero => simp [mergeConfig] at hm
  | succ f =>
      simp only [mergeConfig] at hm
      cases hmf : mergeFieldsWith (fun h b v => mergeConfig f h b v) h
          (spreadFields h v1) (spreadFields h v2) with
      | none => rw [hmf] at hm; simp at hm
      | some p =>
          obtain ⟨hh, flds⟩ := p
          rw [hmf] at hm
          simp only [Option.some.injEq, Prod.mk.injEq] at hm
          obtain ⟨hmh, hmr⟩ := hm
          refine ⟨hh.length, flds, hmr.symm, ?_⟩
          rw [← hmh]
          exact nthObj_append_self hh flds

theorem mergeConfig_empty_overlay (f : Nat) (h : Heap) (a : Nat) (flds : JObj)
    (ha : nthObj h a = some flds) :
    mergeConfig (f + 1) (h ++ [[]]) (.ref a) (.ref h.length)
      = some ((h ++ [[]]) ++ [flds], .ref (h ++ [[]]).length) := by
  have hlt := nthObj_some_lt h a flds ha
  simp only [mergeConfig, spreadFields]
  rw [nthObj_append_left h [[]] a hlt, ha, nthObj_append_self]
  simp [mergeFieldsWith]

/-- C5: any successful `mergeConfig(A, B)` leaves every caller-visible heap
object (A, B, and everything nested under them) unchanged -- the heap is
only ever extended -- and re-merging the result with a freshly allocated
empty object reproduces an object with exactly the same field list (the
same keys, in the same order, with identical values and shared references),
again without touching any existing object. -/
theorem C5_mergeConfig_idem_noMutation (fuel : Nat) (h : Heap) (v1 v2 : JVal)
    (h1 : Heap) (r1 : JVal) (hm : mergeConfig fuel h v1 v2 = some (h1, r1)) :
    (∀ a, a < h.length → nthObj h1 a = nthObj h a)
  ∧ (∃ a flds, r1 = .ref a ∧ nthObj h1 a = some flds ∧
      mergeConfig (fuel + 1) (h1 ++ [[]]) (.ref a) (.ref h1.length)
        = some ((h1 ++ [[]]) ++ [flds], .ref (h1 ++ [[]]).length)
      ∧ ∀ b, b < h1.length → nthObj ((h1 ++ [[]]) ++ [flds]) b = nthObj h1 b) := by
  constructor
  · obtain ⟨t, ht⟩ := mergeConfig_extends fuel h v1 v2 (h1, r1) hm
    simp only at ht
    intro a halt
    rw [ht]
    exact nthObj_append_left h t a halt
  · obtain ⟨a, flds, hr, hget⟩ := mergeConfig_shape fuel h v1 v2 h1 r1 hm
    refine ⟨a, flds, hr, hget, mergeConfig_empty_overlay fuel h1 a flds hget, ?_⟩
    intro b hb
    rw [List.append_assoc]
    exact nthObj_append_left h1 ([[]] ++ [flds]) b hb

/-- Witness for C5: a concrete two-object merge. -/
theorem C5_witness :
    (∀ a, a < ([[("a", JVal.numv 1)], [("b", JVal.numv 2)]] : Heap).length →
        nthObj [[("a", JVal.numv 1)], [("b", JVal.numv 2)],
                [("a", JVal.numv 1), ("b", JVal.numv 2)]] a
          = nthObj [[("a", JVal.numv 1)], [("b", JVal.numv 2)]] a)
  ∧ (∃ a flds, (JVal.ref 2) = .ref a ∧
      nthObj [[("a", JVal.numv 1)], [("b", JVal.numv 2)],
              [("a", JVal.numv 1), ("b", JVal.numv 2)]] a = some flds ∧
      mergeConfig 2 ([[("a", JVal.numv 1)], [("b", JVal.numv 2)],
              [("a", JVal.numv 1), ("b", JVal.numv 2)]] ++ [[]]) (.ref a)
          (.ref ([[("a", JVal.numv 1)], [("b", JVal.numv 2)],
              [("a", JVal.numv 1), ("b", JVal.numv 2)]] : Heap).length)
        = some (([[("a", JVal.numv 1)], [("b", JVal.numv 2)],
              [("a", JVal.numv 1), ("b", JVal.numv 2)]] ++ [[]]) ++ [flds],
            .ref ([[("a", JVal.numv 1)], [("b", JVal.numv 2)],
              [("a", JVal.numv 1), ("b", JVal.numv 2)]] ++ [[]] : Heap).length)
      ∧ ∀ b, b < ([[("a", JVal.numv 1)], [("b", JVal.numv 2)],
              [("a", JVal.numv 1), ("b", JVal.numv 2)]] : Heap).length →
          nthObj (([[("a", JVal.numv 1)], [("b", JVal.numv 2)],
              [("a", JVal.numv 1), ("b", JVal.numv 2)]] ++ [[]]) ++ [flds]) b
            = nthObj [[("a", JVal.numv 1)], [("b", JVal.numv 2)],
                [("a", JVal.numv 1), ("b", JVal.numv 2)]] b) :=
  C5_mergeConfig_idem_noMutation 1 [[("a", JVal.numv 1)], [("b", JVal.numv 2)]]
    (.ref 0) (.ref 1)
    [[("a", JVal.numv 1)], [("b", JVal.numv 2)], [("a", JVal.numv 1), ("b", JVal.numv 2)]]
    (.ref 2) rfl

/-! ## C6: fetch adapter body for 204 and HEAD -/

/-- C6: the bundled fetch adapter returns a `null` body for HTTP 204
regardless of method, response type, headers or configuration; but a HEAD
request gets no such treatment (the response-processing code never inspects
the method), so a HEAD response with status 200 and `responseType: 'text'`
yields the response text `""`, not `null`. -/
theorem C6_fetchBody_204_head :
    (∀ m rt ct text srb rev enc jk,
        fetchResponseBody m 204 rt ct text srb rev enc jk = .ok .nullB)
  ∧ fetchResponseBody "HEAD" 200 "text" none "" false false none (fun _ => true)
      = .ok (.textB "")
  ∧ (RBody.textB "" ≠ RBody.nullB) :=
  ⟨fun _ _ _ _ _ _ _ _ => rfl, rfl, by decide⟩

/-! ## C7: cross-origin redirects strip credentials -/

/-- C7: when the current and target URLs both parse and have different
origins, the follow-up request's headers are exactly the current headers
with every `authorization` and `cookie` entry removed -- so neither key
appears, and every other header survives unchanged (in order). -/
theorem C7_crossOrigin_strip (cu nu : String) (hs : List (String × String))
    (o1 o2 : String) (h1 : originOf cu = some o1) (h2 : originOf nu = some o2)
    (hne : o1 ≠ o2) :
    (∀ p ∈ redirectHeaders cu nu hs, ¬(p.1 = "authorization" ∨ p.1 = "cookie"))
  ∧ redirectHeaders cu nu hs
      = hs.filter (fun p => !(p.1 == "authorization" || p.1 == "cookie")) := by
  have hr : redirectHeaders cu nu hs
      = hs.filter (fun p => !(p.1 == "authorization" || p.1 == "cookie")) := by
    simp only [redirectHeaders, h1, h2]
    rw [if_pos hne]
  refine ⟨?_, hr⟩
  intro p hp
  rw [hr] at hp
  have := List.of_mem_filter hp
  simp only [Bool.not_eq_true'] at this
  intro hcon
  rcases hcon with hA | hC
  · simp [hA] at this
  · simp [hC] at this

/-- Witness for C7: a redirect from an https origin to the same host over
plain http strips `authorization` and keeps the unrelated header. -/
theorem C7_witness :
    (∀ p ∈ redirectHeaders "https://a.com/x" "http://a.com/x"
        [("authorization", "t"), ("x-a", "1")],
        ¬(p.1 = "authorization" ∨ p.1 = "cookie"))
  ∧ redirectHeaders "https://a.com/x" "http://a.com/x"
        [("authorization", "t"), ("x-a", "1")]
      = [("authorization", "t"), ("x-a", "1")].filter
          (fun p => !(p.1 == "authorization" || p.1 == "cookie")) :=
  C7_crossOrigin_strip "https://a.com/x" "http://a.com/x"
    [("authorization", "t"), ("x-a", "1")] "https://a.com" "http://a.com"
    rfl rfl (by decide)

/-! ## C9 -/

theorem loopIter_thrown (cfg : Cfg) (st : LState) (e : MErr) (elapsed : Nat)
    (hpre : ¬(0 < cfg.totalTimeout ∧ cfg.totalTimeout < st.clock)) :
    loopIter cfg st (.thrown e elapsed)
      = catchPath cfg { st with clock := st.clock + elapsed, attemptIdx := st.attemptIdx + 1 }
          e [.att st.attemptIdx] := by
  simp only [loopIter, if_neg hpre]

theorem loopIter_resp (cfg : Cfg) (st : LState) (r : MResp) (elapsed : Nat)
    (hpre : ¬(0 < cfg.totalTimeout ∧ cfg.totalTimeout < st.clock)) :
    loopIter cfg st (.resp r elapsed)
      = respPath cfg { st with clock := st.clock + elapsed, attemptIdx := st.attemptIdx + 1 }
          r [.att st.attemptIdx] := by
  simp only [loopIter, if_neg hpre]

/-- C9: as soon as the transport adapter produces an error whose code is
`ECANCELED`, the dispatch loop ends with exactly that error: the iteration
emits the one attempt event and nothing else -- no retry sleep and no
further transport invocation -- for any remaining retry budget, because
`isRetryableError` rejects `ECANCELED`. -/
theorem C9_cancel_stops (fuel : Nat) (cfg : Cfg) (st : LState) (adapter : Nat → Outcome)
    (e : MErr) (d : Nat)
    (hout : adapter st.attemptIdx = .thrown e d)
    (hcode : e.code = .ECANCELED)
    (hpre : cfg.totalTimeout = 0 ∨ st.clock ≤ cfg.totalTimeout) :
    dispatchFrom (fuel + 1) cfg st adapter = some (.failure e, [.att st.attemptIdx]) := by
  have hprec : ¬(0 < cfg.totalTimeout ∧ cfg.totalTimeout < st.clock) := by
    rcases hpre with h0 | hle
    · rw [h0]; rintro ⟨h, _⟩; omega
    · rintro ⟨_, h⟩; omega
  have hretry : isRetryableError e = false := by
    simp [isRetryableError, hcode]
  have hiter : loopIter cfg st (adapter st.attemptIdx)
      = ([.att st.attemptIdx], .done (.failure e)) := by
    rw [hout, loopIter_thrown cfg st e d hprec]
    rw [catchPath, if_neg (by rw [hretry]; rintro ⟨h, _⟩; exact Bool.false_ne_true h)]
  simp [dispatchFrom, hiter]

theorem C9_witness :
    dispatchFrom 1 ({ retry := 3 } : Cfg) (initState "u" "GET" [])
      (fun _ => .thrown (mkErr .ECANCELED "Canceled" none) 5)
    = some (.failure (mkErr .ECANCELED "Canceled" none), [.att 0]) :=
  C9_cancel_stops 0 { retry := 3 } (initState "u" "GET" [])
    (fun _ => .thrown (mkErr .ECANCELED "Canceled" none) 5)
    (mkErr .ECANCELED "Canceled" none) 5 rfl rfl (Or.inl rfl)

/-! ## C10 -/

theorem catchPath_cases (cfg : Cfg) (st : LState) (e : MErr) (evs : List Event) :
    (∃ evs2 st2, catchPath cfg st e evs = (evs2, .next st2))
  ∨ (∃ evs2 e2, catchPath cfg st e evs = (evs2, .done (.failure e2))) := by
  simp only [catchPath]
  split
  · split
    · split
      · exact Or.inr ⟨_, _, rfl⟩
      · exact Or.inl ⟨_, _, rfl⟩
    · exact Or.inr ⟨_, _, rfl⟩
  · exact Or.inr ⟨_, _, rfl⟩

theorem statusFailPath_cases (cfg : Cfg) (st : LState) (r : MResp) (evs : List Event) :
    (∃ evs2 st2, statusFailPath cfg st r evs = (evs2, .next st2))
  ∨ (∃ evs2 e2, statusFailPath cfg st r evs = (evs2, .done (.failure e2))) := by
  simp only [statusFailPath]
  split
  · split
    · exact catchPath_cases cfg st _ evs
    · exact Or.inl ⟨_, _, rfl⟩
  · exact catchPath_cases cfg st _ evs

theorem respPath_cases (cfg : Cfg) (st1 : LState) (r : MResp) (evs : List Event) :
    (∃ evs2 st2, respPath cfg st1 r evs = (evs2, .next st2))
  ∨ (∃ evs2 e2, respPath cfg st1 r evs = (evs2, .done (.failure e2)))
  ∨ (respPath cfg st1 r evs = (evs, .done (.success r)) ∧ effValidate cfg r.status = true) := by
  simp only [respPath]
  split
  · rename_i hv
    exact Or.inr (Or.inr ⟨rfl, hv⟩)
  · split
    · split
      · split
        · rcases catchPath_cases cfg st1 _ evs with h | h
          · exact Or.inl h
          · exact Or.inr (Or.inl h)
        · exact Or.inl ⟨_, _, rfl⟩
      · rcases statusFailPath_cases cfg st1 r evs with h | h
        · exact Or.inl h
        · exact Or.inr (Or.inl h)
    · rcases statusFailPath_cases cfg st1 r evs with h | h
      · exact Or.inl h
      · exact Or.inr (Or.inl h)

theorem loopIter_success (cfg : Cfg) (st : LState) (out : Outcome) (evs : List Event) (r : MResp)
    (h : loopIter cfg st out = (evs, .done (.success r))) :
    effValidate cfg r.status = true := by
  by_cases hpre : 0 < cfg.totalTimeout ∧ cfg.totalTimeout < st.clock
  · rw [loopIter.eq_def, if_pos hpre] at h
    simp [Prod.ext_iff] at h
  · cases out with
    | thrown e elapsed =>
        rw [loopIter_thrown cfg st e elapsed hpre] at h
        rcases catchPath_cases cfg
            { st with clock := st.clock + elapsed, attemptIdx := st.attemptIdx + 1 }
            e [.att st.attemptIdx] with ⟨evs2, st2, hh⟩ | ⟨evs2, e2, hh⟩
        · rw [hh] at h; simp [Prod.ext_iff] at h
        · rw [hh] at h; simp [Prod.ext_iff] at h
    | resp r0 elapsed =>
        rw [loopIter_resp cfg st r0 elapsed hpre] at h
        rcases respPath_cases cfg
            { st with clock := st.clock + elapsed, attemptIdx := st.attemptIdx + 1 }
            r0 [.att st.attemptIdx] with ⟨evs2, st2, hh⟩ | ⟨evs2, e2, hh⟩ | ⟨hh, hv⟩
        · rw [hh] at h; simp [Prod.ext_iff] at h
        · rw [hh] at h; simp [Prod.ext_iff] at h
        · rw [hh] at h
          simp only [Prod.mk.injEq, IterOut.done.injEq, DResult.success.injEq] at h
          rw [← h.2]
          exact hv

theorem dispatchFrom_success_validated :
    ∀ (fuel : Nat) (cfg : Cfg) (st : LState) (adapter : Nat → Outcome) (r : MResp) (tr : List Event),
      dispatchFrom fuel cfg st adapter = some (.success r, tr) →
      effValidate cfg r.status = true := by
  intro fuel
  induction fuel with
  | zero => intro cfg st adapter r tr h; simp [dispatchFrom] at h
  | succ f ih =>
      intro cfg st adapter r tr h
      rw [dispatchFrom] at h
      cases hiter : loopIter cfg st (adapter st.attemptIdx) with
      | mk evs io =>
          rw [hiter] at h
          cases io with
          | done dr =>
              simp only [Option.some.injEq, Prod.mk.injEq] at h
              obtain ⟨hdr, _⟩ := h
              subst hdr
              exact loopIter_success cfg st (adapter st.attemptIdx) evs r hiter
          | next st2 =>
              simp only at h
              cases hd : dispatchFrom f cfg st2 adapter with
              | none => rw [hd] at h; simp at h
              | some p =>
                  rw [hd] at h
                  obtain ⟨res, tr2⟩ := p
                  simp only [Option.map_some', Option.some.injEq, Prod.mk.injEq] at h
                  obtain ⟨hres, _⟩ := h
                  subst hres
                  exact ih cfg st2 adapter r tr2 hd

/-- C10: whenever the dispatch loop (which runs no hooks) returns a
response instead of throwing, that response satisfies the effective
`validateStatus` (the configured predicate, defaulting to
`200 <= status < 300`); and the bundled fetch adapter's `ok` field --
`validateStatus ? validateStatus(status) : response.ok`, where the platform
`ok` is exactly the 2xx check -- therefore equals `true` on every returned
response. -/
theorem C10_success_ok (fuel : Nat) (cfg : Cfg) (st : LState) (adapter : Nat → Outcome)
    (r : MResp) (tr : List Event)
    (h : dispatchFrom fuel cfg st adapter = some (.success r, tr)) :
    effValidate cfg r.status = true
  ∧ fetchOk cfg.validateStatus r.status
      (decide (200 ≤ r.status) && decide (r.status < 300)) = true := by
  have hv := dispatchFrom_success_validated fuel cfg st adapter r tr h
  refine ⟨hv, ?_⟩
  cases hvs : cfg.validateStatus with
  | none =>
      rw [effValidate, hvs] at hv
      simpa [fetchOk] using hv
  | some f =>
      rw [effValidate, hvs] at hv
      simpa [fetchOk] using hv

theorem C10_witness :
    effValidate {} 200 = true
  ∧ fetchOk ({} : Cfg).validateStatus 200 (decide (200 ≤ 200) && decide (200 < 300)) = true :=
  C10_success_ok 1 {} (initState "u" "GET" [])
    (fun _ => .resp { status := 200, headers := [], url := "u", duration := 0, ok := true } 0)
    { status := 200, headers := [], url := "u", duration := 0, ok := true } [.att 0] rfl

/-! ## C8 -/

theorem countAtt_append (a b : List Event) : countAtt (a ++ b) = countAtt a + countAtt b := by
  simp [countAtt, List.filter_append]

theorem countAtt_att (i : Nat) : countAtt [.att i] = 1 := rfl

theorem redirect_exhaust (cfg : Cfg) (adapter : Nat → Outcome) (r : MResp) (d : Nat) (loc : String)
    (hred : cfg.redirect = "follow") (htt : cfg.totalTimeout = 0)
    (hadapt : ∀ i, adapter i = .resp r d)
    (hval : effValidate cfg r.status = false)
    (h3 : 300 ≤ r.status) (h4 : r.status < 400)
    (hloc : lookupField r.headers "location" = some loc) (hlocne : loc ≠ "") :
    ∀ (k : Nat) (st : LState) (fuel : Nat),
      st.redirectCount + k = effMaxRedirects cfg → k + 1 ≤ fuel →
      ∃ tr, dispatchFrom fuel cfg st adapter
          = some (.failure (mkErr .EMAXREDIRECTS "Max redirects exceeded" (some r)), tr)
        ∧ countAtt tr = k + 1 := by
  have hpre : ∀ st : LState, ¬(0 < cfg.totalTimeout ∧ cfg.totalTimeout < st.clock) := by
    intro st
    rw [htt]
    rintro ⟨h, _⟩
    omega
  have hvne : ¬(effValidate cfg r.status = true) := by rw [hval]; exact Bool.false_ne_true
  have hlocOf : locationOf r = some loc := by
    rw [locationOf, hloc]
    simp [hlocne]
  intro k
  induction k with
  | zero =>
      intro st fuel hcnt hfuel
      obtain ⟨f, rfl⟩ : ∃ f, fuel = f + 1 := ⟨fuel - 1, by omega⟩
      have hiter : loopIter cfg st (adapter st.attemptIdx)
          = ([.att st.attemptIdx],
             .done (.failure (mkErr .EMAXREDIRECTS "Max redirects exceeded" (some r)))) := by
        rw [hadapt st.attemptIdx, loopIter_resp cfg st r d (hpre st)]
        rw [respPath.eq_def, if_neg hvne, hlocOf]
        simp only
        rw [if_pos ⟨hred, h3, h4⟩]
        rw [if_pos (show effMaxRedirects cfg ≤ st.redirectCount by omega)]
        have hnr : isRetryableError (mkErr .EMAXREDIRECTS "Max redirects exceeded" (some r)) = false := rfl
        rw [catchPath.eq_def,
            if_neg (by rintro ⟨hr, _⟩; rw [hnr] at hr; exact Bool.false_ne_true hr)]
      refine ⟨[.att st.attemptIdx], ?_, rfl⟩
      rw [dispatchFrom, hiter]
  | succ j ihj =>
      intro st fuel hcnt hfuel
      obtain ⟨f, rfl⟩ : ∃ f, fuel = f + 1 := ⟨fuel - 1, by omega⟩
      have hnotmax : ¬(effMaxRedirects cfg ≤ st.redirectCount) := by omega
      have hiter : loopIter cfg st (adapter st.attemptIdx)
          = ([.att st.attemptIdx],
             .next (redirectNext
               { st with clock := st.clock + d, attemptIdx := st.attemptIdx + 1 } r loc)) := by
        rw [hadapt st.attemptIdx, loopIter_resp cfg st r d (hpre st)]
        rw [respPath.eq_def, if_neg hvne, hlocOf]
        simp only
        rw [if_pos ⟨hred, h3, h4⟩]
        rw [if_neg (by simpa using hnotmax)]
      have hcnt2 : (redirectNext
          { st with clock := st.clock + d, attemptIdx := st.attemptIdx + 1 } r loc).redirectCount + j
          = effMaxRedirects cfg := by
        simp only [redirectNext]
        omega
      obtain ⟨tr2, htr2, hcount⟩ := ihj (redirectNext
          { st with clock := st.clock + d, attemptIdx := st.attemptIdx + 1 } r loc) f hcnt2
          (by omega)
      refine ⟨[.att st.attemptIdx] ++ tr2, ?_, ?_⟩
      · rw [dispatchFrom, hiter]
        simp only
        rw [htr2]
        rfl
      · rw [countAtt_append, countAtt_att]
        omega

/-- C8 (amended): against an always-redirecting transport with
`redirect: 'follow'`, the call fails with `EMAXREDIRECTS` after exactly
E + 1 transport invocations, where E is the effective redirect cap:
`maxRedirects` when non-zero, and 10 when `maxRedirects` is 0 or unset
(`config.maxRedirects || 10` treats an explicit 0 as unset).  An Attempt
here is one transport invocation (one `att` trace event); the engine's
internal attempts array is discarded on failure. -/
theorem C8_maxRedirects (cfg : Cfg) (url method : String) (hdrs : List (String × String))
    (adapter : Nat → Outcome) (r : MResp) (d : Nat) (loc : String) (fuel : Nat)
    (hred : cfg.redirect = "follow") (htt : cfg.totalTimeout = 0)
    (hadapt : ∀ i, adapter i = .resp r d)
    (hval : effValidate cfg r.status = false)
    (h3 : 300 ≤ r.status) (h4 : r.status < 400)
    (hloc : lookupField r.headers "location" = some loc) (hlocne : loc ≠ "")
    (hfuel : effMaxRedirects cfg + 1 ≤ fuel) :
    ∃ tr, dispatchFrom fuel cfg (initState url method hdrs) adapter
        = some (.failure (mkErr .EMAXREDIRECTS "Max redirects exceeded" (some r)), tr)
      ∧ countAtt tr = effMaxRedirects cfg + 1 :=
  redirect_exhaust cfg adapter r d loc hred htt hadapt hval h3 h4 hloc hlocne
    (effMaxRedirects cfg) (initState url method hdrs) fuel (Nat.zero_add _) hfuel

/-- C8 counterexample: with an explicit `maxRedirects: 0` the claim
demands failure after 0 + 1 = 1 attempt, but the code treats 0 as unset
and performs 11 transport invocations before failing. -/
theorem C8_cx :
    dispatchFrom 12 { maxRedirects := 0 } (initState "https://a.com/x" "GET" [])
      (fun _ => .resp { status := 302, headers := [("location", "https://a.com/y")],
                        url := "https://a.com/x", duration := 1, ok := false } 1)
      = some (.failure (mkErr .EMAXREDIRECTS "Max redirects exceeded"
          (some { status := 302, headers := [("location", "https://a.com/y")],
                  url := "https://a.com/x", duration := 1, ok := false })),
        [.att 0, .att 1, .att 2, .att 3, .att 4, .att 5, .att 6, .att 7, .att 8, .att 9, .att 10])
    ∧ countAtt [.att 0, .att 1, .att 2, .att 3, .att 4, .att 5, .att 6, .att 7, .att 8,
        .att 9, .att 10] = 11
    ∧ (11 : Nat) ≠ 0 + 1 :=
  ⟨rfl, rfl, by decide⟩

/-- Witness for C8: the amended theorem at `maxRedirects: 2` -- failure
after exactly 3 transport invocations, as the test-suite also expects. -/
theorem C8_witness :
    ∃ tr, dispatchFrom 3 ({ maxRedirects := 2 } : Cfg) (initState "https://a.com/x" "GET" [])
        (fun _ => .resp { status := 302, headers := [("location", "https://a.com/y")],
                          url := "https://a.com/x", duration := 1, ok := false } 1)
        = some (.failure (mkErr .EMAXREDIRECTS "Max redirects exceeded"
            (some { status := 302, headers := [("location", "https://a.com/y")],
                    url := "https://a.com/x", duration := 1, ok := false })), tr)
      ∧ countAtt tr = effMaxRedirects { maxRedirects := 2 } + 1 :=
  C8_maxRedirects { maxRedirects := 2 } "https://a.com/x" "GET" []
    (fun _ => .resp { status := 302, headers := [("location", "https://a.com/y")],
                      url := "https://a.com/x", duration := 1, ok := false } 1)
    { status := 302, headers := [("location", "https://a.com/y")],
      url := "https://a.com/x", duration := 1, ok := false } 1 "https://a.com/y" 3
    rfl rfl (fun _ => rfl) rfl (by decide) (by decide) rfl (by decide) (by decide)

/-- C3: the projected-total-timeout check does not fail the call.  With
`totalTimeout: 1000`, `retry: 1`, numeric `retryDelay` 0, a first attempt
answering 500 with `retry-after: 2` after 100 ms has projected elapsed time
100 + 2000 > 1000, so the claim requires an immediate `ETIMEDOUT` failure
with no sleep and no further transport attempt.  Instead the engine's own
`throw` is caught by its own catch block, the delay is recomputed without
the response (0 ms), the engine sleeps 0 ms, invokes the transport a second
time, and the call even succeeds. -/
theorem C3_caught_timeout_retries :
    dispatchFrom 3 { totalTimeout := 1000, retry := 1 } (initState "https://a.com/x" "GET" [])
      (fun i => if i = 0
        then .resp { status := 500, headers := [("retry-after", "2")],
                     url := "https://a.com/x", duration := 100, ok := false } 100
        else .resp { status := 200, headers := [], url := "https://a.com/x",
                     duration := 50, ok := true } 50)
    = some (.success { status := 200, headers := [], url := "https://a.com/x",
                       duration := 50, ok := true },
        [.att 0, .slp 0, .att 1])
    ∧ (100 : Int) + 2000 > 1000 := by
  exact ⟨rfl, by decide⟩
